import Mathlib

/-!
Shallow embedding of the Stockmind aggregation pipeline (src/BACK.py).

External providers (Wikipedia, Alpha Vantage SYMBOL_SEARCH, yfinance history
and market-cap info, the generative-text model) are modelled as functions
packaged in a `Providers` record: an `Except` value models a call that can
raise an exception, and the payload models the data the source code reads
from the response.  Each Python function of BACK.py is translated to a Lean
definition of the same name; Python truthiness tests are translated
explicitly (None or empty string or empty list or zero are falsy).

The iteration order of the Python expression `set(competitors)` in
`get_top_competitors` is unspecified; the embedding therefore takes the
encounter order as an explicit list parameter, and theorems quantify over
all such orders.
-/

/-- One entry of the Alpha Vantage `bestMatches` array: the fields the code
reads are the symbol and the region. -/
structure SymbolMatch where
  symbol : String
  region : String
deriving DecidableEq, Repr

/-- One sector of the generative-text breakdown: a sector name together with
its competitor names, as parsed by `query_gemini_llm`. -/
structure Sector where
  name : String
  competitors : List String
deriving DecidableEq, Repr

/-- One accepted competitor record built by `get_top_competitors`. -/
structure CompetitorEntry where
  name : String
  ticker : String
  market_cap : Nat
  stock_prices : List ℚ
  time_labels : List String
  stock_price : ℚ
deriving DecidableEq, Repr

/-- The external data sources of BACK.py, modelled as functions.
An `Except` result models a call that can raise; `Option` inside models a
missing field of the response. -/
structure Providers where
  wiki_search : String → Except String (List String)
  wiki_summary : String → Except String String
  symbol_search : String → Except Unit (Option (List SymbolMatch))
  history : String → Except Unit (List ℚ × List String)
  info_market_cap : String → Except Unit (Option Nat)
  gemini : String → Except Unit String

/-- Embedding of `fetch_wikipedia_summary`: returns the pair
(page title or None, summary-or-message string), exactly as the Python
function does on each of its three paths. -/
def fetch_wikipedia_summary (P : Providers) (company_name : String) :
    Option String × String :=
  match P.wiki_search company_name with
  | .error e => (none, "Error fetching Wikipedia summary: " ++ e)
  | .ok [] => (none, "No Wikipedia page found for the given company.")
  | .ok (page_title :: _) =>
    match P.wiki_summary page_title with
    | .error e => (none, "Error fetching Wikipedia summary: " ++ e)
    | .ok summary => (some page_title, summary)

/-- Rounding to 2 decimal places, modelling Python `round(price, 2)`.
At non-tie values (the only ones the spec discusses) every rounding mode
agrees; half-up is used here. -/
def round2 (x : ℚ) : ℚ := ((x * 100 + 1 / 2).floor : ℚ) / 100

/-- Embedding of `fetch_stock_price` (primary-company path): closes rounded
to 2 decimals; on an exception both components are None. -/
def fetch_stock_price (P : Providers) (ticker : String) :
    Option (List ℚ) × Option (List String) :=
  match P.history ticker with
  | .error _ => (none, none)
  | .ok (closes, labels) => (some (closes.map round2), some labels)

/-- Embedding of `get_ticker_from_alpha_vantage`, as a function of the
response of the SYMBOL_SEARCH request: on an exception None, when the
response lacks a bestMatches key None, otherwise the symbol of the first
match whose region is United States, None when no match has that region. -/
def get_ticker_from_alpha_vantage
    (resp : Except Unit (Option (List SymbolMatch))) : Option String :=
  match resp with
  | .error _ => none
  | .ok none => none
  | .ok (some ms) =>
    (ms.find? (fun m => m.region == "United States")).map
      (fun m => m.symbol)

/-- Embedding of `fetch_market_cap`: the marketCap field of the info dict,
None when the field is missing or the call raises. -/
def fetch_market_cap (P : Providers) (ticker : String) : Option Nat :=
  match P.info_market_cap ticker with
  | .error _ => none
  | .ok v => v

/-- Embedding of `get_stock_price_for_competitor`: identical to
`fetch_stock_price` except that closes are NOT rounded. -/
def get_stock_price_for_competitor (P : Providers) (ticker : String) :
    Option (List ℚ) × Option (List String) :=
  match P.history ticker with
  | .error _ => (none, none)
  | .ok (closes, labels) => (some closes, some labels)

/-- The loop body of `get_top_competitors`: `order` is the sequence in which
the loop visits the elements of the Python expression set(competitors)
(the iteration order is unspecified, so it is a parameter), `processed` is
the processed_tickers set.  The guards translate the Python truthiness
tests: `if ticker and ticker not in processed_tickers` and
`if market_cap and stock_prices and time_labels`. -/
def get_top_competitors_loop (P : Providers) :
    List String → List String → List CompetitorEntry
  | [], _ => []
  | c :: rest, processed =>
    match get_ticker_from_alpha_vantage (P.symbol_search c) with
    | none => get_top_competitors_loop P rest processed
    | some t =>
      if t ≠ "" ∧ t ∉ processed then
        match fetch_market_cap P t, get_stock_price_for_competitor P t with
        | some cap, (some prices, some labels) =>
          if cap ≠ 0 ∧ prices ≠ [] ∧ labels ≠ [] then
            { name := c, ticker := t, market_cap := cap,
              stock_prices := prices, time_labels := labels,
              stock_price := prices.getLast?.getD 0 } ::
              get_top_competitors_loop P rest (t :: processed)
          else get_top_competitors_loop P rest processed
        | some _, (some _, none) => get_top_competitors_loop P rest processed
        | some _, (none, _) => get_top_competitors_loop P rest processed
        | none, _ => get_top_competitors_loop P rest processed
      else get_top_competitors_loop P rest processed

/-- The descending market-cap order used by the final
`sorted(competitor_data, key=..., reverse=True)`. -/
def capGE (a b : CompetitorEntry) : Prop := b.market_cap ≤ a.market_cap

instance : DecidableRel capGE := fun a b => Nat.decLe b.market_cap a.market_cap

instance : IsTotal CompetitorEntry capGE :=
  ⟨fun a b => Or.imp (fun h => h) (fun h => h)
    (Nat.le_total b.market_cap a.market_cap)⟩

instance : IsTrans CompetitorEntry capGE :=
  ⟨fun _ _ _ h1 h2 => le_trans h2 h1⟩

/-- Embedding of `get_top_competitors`: run the loop, sort the accepted
records by market cap descending with a stable sort (CPython sorted is
stable; a stable sort is extensionally unique, so insertion sort is a
faithful model), take the first 3. -/
def get_top_competitors (P : Providers) (order : List String) :
    List CompetitorEntry :=
  (List.insertionSort capGE (get_top_competitors_loop P order [])).take 3

/-- The prompt template built by `query_gemini_llm` from the first 500
characters of the description. -/
def gemini_prompt (description : String) : String :=
  "Provide a structured list of sectors and their competitors for the following company description: "
    ++ description.take 500
    ++ " Format: Sector Name : Competitor 1 Competitor 2 Competitor 3 Leave a line after each sector. Do not use bullet points."

/-- The response parsing of `query_gemini_llm`: split on blank lines; in each
block, strip, split on newlines; blocks of at least two lines become a
sector whose name is the first line and whose competitors are the remaining
lines, each trimmed. -/
def parse_sectors (content : String) : List Sector :=
  (content.splitOn ("\n\n")).filterMap (fun block =>
    let lines := block.trim.splitOn ("\n")
    if lines.length > 1 then
      some { name := (lines.headD ("")).trim,
             competitors := (lines.drop 1).map (fun l => l.trim) }
    else none)

/-- Embedding of `query_gemini_llm`: None when the generation call raises,
otherwise the parsed sector list. -/
def query_gemini_llm (P : Providers) (description : String) :
    Option (List Sector) :=
  match P.gemini (gemini_prompt description) with
  | .error _ => none
  | .ok content => some (parse_sectors content)

/-- The placeholder breakdown substituted when `query_gemini_llm` returns a
falsy value. -/
def noSectorsPlaceholder : List Sector :=
  [{ name := "No Sectors", competitors := ["No competitors found."] }]

/-- Result of the `analyze_company` route: the failure JSON carries the error
message, the success JSON carries the six data fields. -/
inductive AnalyzeResult where
  | failure (error : String)
  | success (description : String) (ticker : String)
      (stock_prices : List ℚ) (time_labels : List String)
      (competitors : List Sector) (top_competitors : List CompetitorEntry)
deriving DecidableEq, Repr

/-- Embedding of the `analyze_company` route handler.  `company_name` is
None when the query parameter is missing; `setIter` models the unspecified
iteration order of set(competitors) inside `get_top_competitors` (it is
given the flattened candidate list and returns the encounter order). -/
def analyze_company (P : Providers) (setIter : List String → List String)
    (company_name : Option String) : AnalyzeResult :=
  match company_name with
  | none => .failure ("No company name provided.")
  | some name =>
    if name = "" then .failure ("No company name provided.")
    else
      let summary := (fetch_wikipedia_summary P name).2
      if summary = "" then .failure ("Could not find company description.")
      else
        match get_ticker_from_alpha_vantage (P.symbol_search name) with
        | none => .failure ("Could not find ticker symbol.")
        | some ticker =>
          if ticker = "" then .failure ("Could not find ticker symbol.")
          else
            match fetch_stock_price P ticker with
            | (some stock_prices, some time_labels) =>
              if stock_prices = [] ∨ time_labels = [] then
                .failure ("Could not fetch stock prices.")
              else
                let competitors :=
                  match query_gemini_llm P summary with
                  | none => noSectorsPlaceholder
                  | some [] => noSectorsPlaceholder
                  | some (s :: ss) => s :: ss
                let all_competitors :=
                  (competitors.map (fun s => s.competitors)).flatten
                .success summary ticker stock_prices time_labels competitors
                  (get_top_competitors P (setIter all_competitors))
            | (some _, none) => .failure ("Could not fetch stock prices.")
            | (none, _) => .failure ("Could not fetch stock prices.")

/-- Sample provider behaviour: the encyclopedia search succeeds with no
results (lookup absent), every symbol search finds the United States ticker
TK, price history is one close of 1, the market cap is 5, and the
generative-text call raises. -/
def richProvider : Providers where
  wiki_search := fun _ => .ok []
  wiki_summary := fun _ => .error ("boom")
  symbol_search := fun _ => .ok (some [⟨"TK", "United States"⟩])
  history := fun _ => .ok ([1], ["d"])
  info_market_cap := fun _ => .ok (some 5)
  gemini := fun _ => .error ()

/-- Sample provider behaviour: every provider call raises. -/
def failingProvider : Providers where
  wiki_search := fun _ => .error ("down")
  wiki_summary := fun _ => .error ("down")
  symbol_search := fun _ => .error ()
  history := fun _ => .error ()
  info_market_cap := fun _ => .error ()
  gemini := fun _ => .error ()

/-- Sample provider behaviour: four candidate names resolving to four
distinct United States tickers with market caps 50, 200, 10 and 75. -/
def fourCapsProvider : Providers where
  wiki_search := fun _ => .error ("x")
  wiki_summary := fun _ => .error ("x")
  symbol_search := fun n =>
    if n = "Alpha" then .ok (some [⟨"TA", "United States"⟩])
    else if n = "Beta" then .ok (some [⟨"TB", "United States"⟩])
    else if n = "Gamma" then .ok (some [⟨"TC", "United States"⟩])
    else if n = "Delta" then .ok (some [⟨"TD", "United States"⟩])
    else .error ()
  history := fun _ => .ok ([1], ["d"])
  info_market_cap := fun t =>
    if t = "TA" then .ok (some 50)
    else if t = "TB" then .ok (some 200)
    else if t = "TC" then .ok (some 10)
    else if t = "TD" then .ok (some 75)
    else .error ()
  gemini := fun _ => .error ()

/-- Sample provider behaviour: the two spellings Acme Corp and ACME both
resolve to the single United States ticker ACME, whose data is present. -/
def dupTickerProvider : Providers where
  wiki_search := fun _ => .error ("x")
  wiki_summary := fun _ => .error ("x")
  symbol_search := fun n =>
    if n = "Acme Corp" ∨ n = "ACME" then .ok (some [⟨"ACME", "United States"⟩])
    else .error ()
  history := fun _ => .ok ([2], ["d"])
  info_market_cap := fun _ => .ok (some 7)
  gemini := fun _ => .error ()

/-- The single record `dupTickerProvider` can accept, for the first spelling
encountered. -/
def acmeEntry : CompetitorEntry where
  name := "Acme Corp"
  ticker := "ACME"
  market_cap := 7
  stock_prices := [2]
  time_labels := ["d"]
  stock_price := 2

/-- Sample provider behaviour: the candidate resolves to ticker T0 whose
market cap is PRESENT but equal to 0, with non-empty price history. -/
def zeroCapProvider : Providers where
  wiki_search := fun _ => .error ("x")
  wiki_summary := fun _ => .error ("x")
  symbol_search := fun _ => .ok (some [⟨"T0", "United States"⟩])
  history := fun _ => .ok ([5], ["d"])
  info_market_cap := fun _ => .ok (some 0)
  gemini := fun _ => .error ()

/-- Sample provider behaviour: the price history is the raw close list
101.236, 99.004 of the round-trip test of the spec. -/
def rawCloseProvider : Providers where
  wiki_search := fun _ => .error ("x")
  wiki_summary := fun _ => .error ("x")
  symbol_search := fun _ => .error ()
  history := fun _ => .ok ([101.236, 99.004], ["d1", "d2"])
  info_market_cap := fun _ => .error ()
  gemini := fun _ => .error ()

/-- Sample provider behaviour: the whole primary path succeeds (description
desc, ticker TK, one close), the generative-text call raises, and the
market cap is a missing field so the ranker accepts nothing. -/
def extractorAbsentProvider : Providers where
  wiki_search := fun _ => .ok ["T"]
  wiki_summary := fun _ => .ok ("desc")
  symbol_search := fun _ => .ok (some [⟨"TK", "United States"⟩])
  history := fun _ => .ok ([1], ["d"])
  info_market_cap := fun _ => .ok none
  gemini := fun _ => .error ()

lemma loop_mem (P : Providers) :
    ∀ (order processed : List String) (rec : CompetitorEntry),
    rec ∈ get_top_competitors_loop P order processed →
    get_ticker_from_alpha_vantage (P.symbol_search rec.name) = some rec.ticker ∧
    rec.ticker ≠ "" ∧ rec.ticker ∉ processed ∧
    fetch_market_cap P rec.ticker = some rec.market_cap ∧
    rec.market_cap ≠ 0 ∧
    get_stock_price_for_competitor P rec.ticker =
      (some rec.stock_prices, some rec.time_labels) ∧
    rec.stock_prices ≠ [] ∧ rec.time_labels ≠ [] ∧
    rec.stock_price = rec.stock_prices.getLast?.getD 0 := by
  intro order
  induction order with
  | nil =>
    intro processed rec h
    simp [get_top_competitors_loop] at h
  | cons c rest ih =>
    intro processed rec h
    simp only [get_top_competitors_loop] at h
    split at h
    · exact ih _ _ h
    · rename_i t hres
      split at h
      · rename_i hguard
        split at h
        · rename_i cap prices labels hcap hprice
          split at h
          · rename_i hok
            rcases List.mem_cons.mp h with hrec | hrec
            · subst hrec
              exact ⟨hres, hguard.1, hguard.2, hcap, hok.1, hprice,
                hok.2.1, hok.2.2, rfl⟩
            · have h2 := ih _ _ hrec
              exact ⟨h2.1, h2.2.1, fun hm => h2.2.2.1 (List.mem_cons_of_mem _ hm), h2.2.2.2⟩
          · have h2 := ih _ _ h
            exact h2
        · exact ih _ _ h
        · exact ih _ _ h
        · exact ih _ _ h
      · exact ih _ _ h

lemma loop_pairwise (P : Providers) :
    ∀ (order processed : List String),
    (get_top_competitors_loop P order processed).Pairwise
      (fun a b => a.ticker ≠ b.ticker) := by
  intro order
  induction order with
  | nil => intro processed; simp [get_top_competitors_loop]
  | cons c rest ih =>
    intro processed
    simp only [get_top_competitors_loop]
    split
    · exact ih _
    · rename_i t hres
      split
      · split
        · rename_i cap prices labels hcap hprice
          split
          · refine List.Pairwise.cons ?_ (ih _)
            intro b hb heq
            have hmem := loop_mem P _ _ _ hb
            exact hmem.2.2.1 (heq ▸ List.mem_cons_self _ _)
          · exact ih _
        · exact ih _
        · exact ih _
        · exact ih _
      · exact ih _

lemma loop_find (P : Providers) :
    ∀ (order processed : List String) (rec : CompetitorEntry),
    rec ∈ get_top_competitors_loop P order processed →
    order.find? (fun c =>
      get_ticker_from_alpha_vantage (P.symbol_search c) == some rec.ticker) =
      some rec.name := by
  intro order
  induction order with
  | nil => intro processed rec h; simp [get_top_competitors_loop] at h
  | cons c rest ih =>
    intro processed rec h
    simp only [get_top_competitors_loop] at h
    split at h
    · rename_i hres
      rw [List.find?_cons_of_neg _ (by simp [hres])]
      exact ih _ _ h
    · rename_i t hres
      split at h
      · rename_i hguard
        split at h
        · rename_i cap prices labels hcap hprice
          split at h
          · rename_i hok
            rcases List.mem_cons.mp h with hrec | hrec
            · subst hrec
              rw [List.find?_cons_of_pos _ (by simp [hres])]
            · have hmem := loop_mem P _ _ _ hrec
              have hne : t ≠ rec.ticker := by
                intro heq
                exact hmem.2.2.1 (heq ▸ List.mem_cons_self _ _)
              rw [List.find?_cons_of_neg _ (by simp [hres]; exact hne)]
              exact ih _ _ hrec
          · rename_i hok
            have hmem := loop_mem P _ _ _ h
            have hne : t ≠ rec.ticker := by
              intro heq
              subst heq
              rw [hcap] at hmem
              rw [hprice] at hmem
              have h1 : cap = rec.market_cap := Option.some_injective _ hmem.2.2.2.1
              have h2 : prices = rec.stock_prices := by
                have := hmem.2.2.2.2.2.1
                exact congrArg Prod.fst this |> Option.some_injective _
              have h3 : labels = rec.time_labels := by
                have := hmem.2.2.2.2.2.1
                exact congrArg Prod.snd this |> Option.some_injective _
              exact hok ⟨h1 ▸ hmem.2.2.2.2.1, h2 ▸ hmem.2.2.2.2.2.2.1,
                h3 ▸ hmem.2.2.2.2.2.2.2.1⟩
            rw [List.find?_cons_of_neg _ (by simp [hres]; exact hne)]
            exact ih _ _ h
        · rename_i hcap hprice
          have hmem := loop_mem P _ _ _ h
          have hne : t ≠ rec.ticker := by
            intro heq
            subst heq
            rw [hprice] at hmem
            simp at hmem
          rw [List.find?_cons_of_neg _ (by simp [hres]; exact hne)]
          exact ih _ _ h
        · rename_i hcap hprice
          have hmem := loop_mem P _ _ _ h
          have hne : t ≠ rec.ticker := by
            intro heq
            subst heq
            rw [hprice] at hmem
            simp at hmem
          rw [List.find?_cons_of_neg _ (by simp [hres]; exact hne)]
          exact ih _ _ h
        · rename_i hcap
          have hmem := loop_mem P _ _ _ h
          have hne : t ≠ rec.ticker := by
            intro heq
            subst heq
            rw [hcap] at hmem
            simp at hmem
          rw [List.find?_cons_of_neg _ (by simp [hres]; exact hne)]
          exact ih _ _ h
      · rename_i hguard
        have hmem := loop_mem P _ _ _ h
        have hne : t ≠ rec.ticker := by
          intro heq
          subst heq
          exact hguard ⟨hmem.2.1, hmem.2.2.1⟩
        rw [List.find?_cons_of_neg _ (by simp [hres]; exact hne)]
        exact ih _ _ h

lemma loop_complete (P : Providers) :
    ∀ (order processed : List String) (c t : String) (cap : Nat)
      (prices : List ℚ) (labels : List String),
    get_ticker_from_alpha_vantage (P.symbol_search c) = some t →
    t ≠ "" → t ∉ processed →
    fetch_market_cap P t = some cap → cap ≠ 0 →
    get_stock_price_for_competitor P t = (some prices, some labels) →
    prices ≠ [] → labels ≠ [] →
    order.find? (fun d =>
      get_ticker_from_alpha_vantage (P.symbol_search d) == some t) = some c →
    ∃ rec ∈ get_top_competitors_loop P order processed,
      rec.name = c ∧ rec.ticker = t := by
  intro order
  induction order with
  | nil =>
    intro processed c t cap prices labels _ _ _ _ _ _ _ _ hfind
    simp at hfind
  | cons d rest ih =>
    intro processed c t cap prices labels hres ht hproc hcap hcapne hprice hpne hlne hfind
    rcases hpd : get_ticker_from_alpha_vantage (P.symbol_search d) with _ | t'
    · rw [List.find?_cons_of_neg _ (by simp [hpd])] at hfind
      simp only [get_top_competitors_loop, hpd]
      exact ih processed c t cap prices labels hres ht hproc hcap hcapne hprice hpne hlne hfind
    · by_cases heq : t' = t
      · subst heq
        rw [List.find?_cons_of_pos _ (by simp [hpd])] at hfind
        have hdc : d = c := Option.some_injective _ hfind
        subst hdc
        simp only [get_top_competitors_loop, hpd]
        rw [if_pos ⟨ht, hproc⟩]
        split
        · rename_i cap' prices' labels' hcap' hprice'
          rw [hcap] at hcap'
          rw [hprice] at hprice'
          simp only [Option.some.injEq] at hcap'
          simp only [Prod.mk.injEq, Option.some.injEq] at hprice'
          subst hcap'
          obtain ⟨hp1, hp2⟩ := hprice'
          subst hp1
          subst hp2
          rw [if_pos ⟨hcapne, hpne, hlne⟩]
          exact ⟨_, List.mem_cons_self _ _, rfl, rfl⟩
        · rename_i hcap' hprice'
          rw [hprice] at hprice'
          simp at hprice'
        · rename_i hcap' hprice'
          rw [hprice] at hprice'
          simp at hprice'
        · rename_i hcap'
          rw [hcap] at hcap'
          simp at hcap'
      · rw [List.find?_cons_of_neg _ (by simp [hpd]; exact heq)] at hfind
        simp only [get_top_competitors_loop, hpd]
        split
        · rename_i hguard
          split
          · rename_i cap' prices' labels' hcap' hprice'
            split
            · rename_i hok'
              have hproc' : t ∉ t' :: processed := by
                intro hmem
                rcases List.mem_cons.mp hmem with h1 | h1
                · exact heq h1.symm
                · exact hproc h1
              obtain ⟨rec, hrecmem, hname, hticker⟩ :=
                ih (t' :: processed) c t cap prices labels hres ht hproc' hcap
                  hcapne hprice hpne hlne hfind
              exact ⟨rec, List.mem_cons_of_mem _ hrecmem, hname, hticker⟩
            · exact ih processed c t cap prices labels hres ht hproc hcap
                hcapne hprice hpne hlne hfind
          · exact ih processed c t cap prices labels hres ht hproc hcap
              hcapne hprice hpne hlne hfind
          · exact ih processed c t cap prices labels hres ht hproc hcap
              hcapne hprice hpne hlne hfind
          · exact ih processed c t cap prices labels hres ht hproc hcap
              hcapne hprice hpne hlne hfind
        · exact ih processed c t cap prices labels hres ht hproc hcap
            hcapne hprice hpne hlne hfind

lemma filter_orderedInsert_of_neg (a : CompetitorEntry) (k : Nat)
    (h : a.market_cap ≠ k) :
    ∀ l : List CompetitorEntry,
    (List.orderedInsert capGE a l).filter (fun e => e.market_cap == k) =
      l.filter (fun e => e.market_cap == k) := by
  intro l
  induction l with
  | nil => simp [List.orderedInsert, List.filter_cons, h]
  | cons b l ih =>
    rw [List.orderedInsert]
    split
    · rw [List.filter_cons]
      simp [h]
    · simp only [List.filter_cons, ih]

lemma filter_orderedInsert_of_pos (a : CompetitorEntry) (k : Nat)
    (h : a.market_cap = k) :
    ∀ l : List CompetitorEntry,
    (List.orderedInsert capGE a l).filter (fun e => e.market_cap == k) =
      a :: l.filter (fun e => e.market_cap == k) := by
  intro l
  induction l with
  | nil => simp [List.orderedInsert, List.filter_cons, h]
  | cons b l ih =>
    rw [List.orderedInsert]
    split
    · rw [List.filter_cons]
      simp [h]
    · rename_i hr
      have hab : a.market_cap < b.market_cap := Nat.lt_of_not_le hr
      have hbk : b.market_cap ≠ k := by omega
      simp only [List.filter_cons, ih]
      simp [hbk]

lemma filter_insertionSort (k : Nat) :
    ∀ l : List CompetitorEntry,
    (List.insertionSort capGE l).filter (fun e => e.market_cap == k) =
      l.filter (fun e => e.market_cap == k) := by
  intro l
  induction l with
  | nil => rfl
  | cons a l ih =>
    rw [List.insertionSort]
    by_cases h : a.market_cap = k
    · rw [filter_orderedInsert_of_pos a k h, ih, List.filter_cons]
      simp [h]
    · rw [filter_orderedInsert_of_neg a k h, ih, List.filter_cons]
      simp [h]

lemma ratFloor_eq_intFloor (q : ℚ) : q.floor = ⌊q⌋ := by
  rw [Rat.floor_def', Rat.floor_def]

lemma round2_101236 : round2 101.236 = 101.24 := by
  rw [round2, ratFloor_eq_intFloor]; norm_num

lemma round2_99004 : round2 99.004 = 99.0 := by
  rw [round2, ratFloor_eq_intFloor]; norm_num

lemma mem_loop_of_mem_gtc {P : Providers} {order : List String}
    {rec : CompetitorEntry} (h : rec ∈ get_top_competitors P order) :
    rec ∈ get_top_competitors_loop P order [] :=
  (List.perm_insertionSort capGE _).mem_iff.mp (List.take_subset _ _ h)

lemma find_first_us (m : SymbolMatch) :
    ∀ (pre post : List SymbolMatch), (∀ x ∈ pre, x.region ≠ "United States") →
    m.region = "United States" →
    List.find? (fun x => x.region == "United States") (pre ++ m :: post) =
      some m := by
  intro pre
  induction pre with
  | nil =>
    intro post _ hm
    rw [List.nil_append, List.find?_cons_of_pos _ (by simp [hm])]
  | cons x pre ih =>
    intro post hpre hm
    rw [List.cons_append,
      List.find?_cons_of_neg _ (by simp; exact hpre x (List.mem_cons_self _ _))]
    exact ih post (fun y hy => hpre y (List.mem_cons_of_mem _ hy)) hm

/-- C1 (code bug): when the encyclopedia lookup reports absent (here the
search succeeds with no results), fetch_wikipedia_summary returns title None
together with a non-empty sentinel message in the summary component.
analyze_company tests only the summary component, which is non-empty, so it
does NOT return the DESCRIPTION_NOT_FOUND error: it proceeds, consults the
symbol resolver, and here even returns a success whose description is the
sentinel message and whose ticker comes from the resolver. -/
theorem c1_code_divergence :
    (fetch_wikipedia_summary richProvider "Foo").1 = none ∧
    analyze_company richProvider List.dedup (some ("Foo")) =
      .success ("No Wikipedia page found for the given company.") ("TK")
        (List.map round2 [1]) ["d"] noSectorsPlaceholder
        [{ name := "No competitors found.", ticker := "TK", market_cap := 5,
           stock_prices := [1], time_labels := ["d"], stock_price := 1 }] :=
  ⟨rfl, rfl⟩

/-- C2 (amended): analyze_company returns the MISSING_INPUT error exactly
for a missing or empty company_name, and does so independently of every
provider behaviour (hence without any observable provider call); a
whitespace-only name is NOT rejected. -/
theorem c2_missing_input_on_empty (P : Providers)
    (setIter : List String → List String) :
    analyze_company P setIter none = .failure ("No company name provided.") ∧
    analyze_company P setIter (some ("")) =
      .failure ("No company name provided.") :=
  ⟨rfl, rfl⟩

/-- C2 counterexample: for the whitespace-only name, analyze_company does
not return the MISSING_INPUT error, and its result depends on the
providers, so a provider call is made. -/
theorem c2_counterexample :
    analyze_company richProvider List.dedup (some (" ")) ≠
      .failure ("No company name provided.") ∧
    analyze_company richProvider List.dedup (some (" ")) ≠
      analyze_company failingProvider List.dedup (some (" ")) := by
  constructor <;> decide

/-- C3: for every provider behaviour and every candidate encounter order, no
two returned records share a ticker, and the record kept for a ticker is
the one for the first candidate in encounter order that resolves to that
ticker. -/
theorem c3_ticker_unique (P : Providers) (order : List String) :
    (get_top_competitors P order).Pairwise (fun a b => a.ticker ≠ b.ticker) ∧
    ∀ rec ∈ get_top_competitors P order,
      order.find? (fun c =>
        get_ticker_from_alpha_vantage (P.symbol_search c) ==
          some rec.ticker) = some rec.name := by
  constructor
  · have hp := loop_pairwise P order []
    have hperm :=
      List.perm_insertionSort capGE (get_top_competitors_loop P order [])
    have hs := (hperm.pairwise_iff (fun h => Ne.symm h)).mpr hp
    exact hs.sublist (List.take_sublist _ _)
  · intro rec hrec
    exact loop_find P order [] rec (mem_loop_of_mem_gtc hrec)

/-- C3 witness: with the two spellings Acme Corp and ACME both resolving to
ticker ACME, the kept record is the one of the first spelling. -/
theorem c3_witness :
    ["Acme Corp", "ACME"].find? (fun c =>
      get_ticker_from_alpha_vantage (dupTickerProvider.symbol_search c) ==
        some acmeEntry.ticker) = some acmeEntry.name :=
  (c3_ticker_unique dupTickerProvider ["Acme Corp", "ACME"]).2 acmeEntry
    (by decide)

/-- C4: for every provider behaviour and encounter order the result has at
most 3 records and is sorted by market cap descending, the sort being
stable (filtering the sorted accepted records at any fixed market cap gives
exactly the accepted records of that cap in encounter order); on the
concrete caps 50, 200, 10, 75 the output caps are 200, 75, 50. -/
theorem c4_top3_sorted_stable :
    (∀ (P : Providers) (order : List String),
      (get_top_competitors P order).length ≤ 3 ∧
      (get_top_competitors P order).Pairwise capGE ∧
      (∀ k : Nat,
        (List.insertionSort capGE (get_top_competitors_loop P order [])).filter
            (fun e => e.market_cap == k) =
          (get_top_competitors_loop P order []).filter
            (fun e => e.market_cap == k))) ∧
    (get_top_competitors fourCapsProvider
        ["Alpha", "Beta", "Gamma", "Delta"]).map (fun e => e.market_cap) =
      [200, 75, 50] := by
  constructor
  · intro P order
    refine ⟨?_, ?_, fun k => filter_insertionSort k _⟩
    · rw [get_top_competitors]
      exact List.length_take_le _ _
    · exact (List.sorted_insertionSort capGE _).sublist
        (List.take_sublist _ _)
  · decide

/-- C5: on the primary-company path the closes are the raw closes mapped
through round2, on the competitor path they are the raw closes unchanged,
and on the raw closes 101.236, 99.004 the rounding yields 101.24, 99.0. -/
theorem c5_round_asymmetry (P : Providers) (t : String) (closes : List ℚ)
    (labels : List String) (h : P.history t = .ok (closes, labels)) :
    fetch_stock_price P t = (some (closes.map round2), some labels) ∧
    get_stock_price_for_competitor P t = (some closes, some labels) ∧
    [(101.236 : ℚ), 99.004].map round2 = [101.24, 99.0] := by
  refine ⟨?_, ?_, ?_⟩
  · rw [fetch_stock_price, h]
  · rw [get_stock_price_for_competitor, h]
  · rw [List.map_cons, List.map_cons, List.map_nil, round2_101236,
      round2_99004]

/-- C5 witness: the asymmetry at the provider whose raw closes are exactly
101.236 and 99.004. -/
theorem c5_witness :
    fetch_stock_price rawCloseProvider ("T") =
      (some ([101.236, 99.004].map round2), some ["d1", "d2"]) ∧
    get_stock_price_for_competitor rawCloseProvider ("T") =
      (some [101.236, 99.004], some ["d1", "d2"]) ∧
    [(101.236 : ℚ), 99.004].map round2 = [101.24, 99.0] :=
  c5_round_asymmetry rawCloseProvider ("T") [101.236, 99.004] ["d1", "d2"] rfl

/-- C6 counterexample: a candidate whose ticker resolves, whose market cap
is PRESENT (some 0) and whose price history is present and non-empty is
nevertheless dropped, so presence of the market cap is not sufficient for
acceptance. -/
theorem c6_counterexample :
    get_ticker_from_alpha_vantage (zeroCapProvider.symbol_search "Acme") =
      some ("T0") ∧
    fetch_market_cap zeroCapProvider ("T0") = some 0 ∧
    get_stock_price_for_competitor zeroCapProvider ("T0") =
      (some [5], some ["d"]) ∧
    get_top_competitors_loop zeroCapProvider ["Acme"] [] = [] ∧
    get_top_competitors zeroCapProvider ["Acme"] = [] :=
  ⟨rfl, rfl, rfl, rfl, rfl⟩

/-- C6 (amended): a candidate name contributes an accepted record (from
which the top-limit result is then drawn) exactly when it resolves to a
non-empty ticker, that ticker's market cap is present and non-zero, its
price history is present with non-empty closes and labels, and the
candidate is the first in encounter order to resolve to that ticker;
and when nothing is accepted the returned sequence is simply empty. -/
theorem c6_acceptance_characterisation (P : Providers)
    (order : List String) :
    (∀ c : String,
      c ∈ (get_top_competitors_loop P order []).map (fun rec => rec.name) ↔
      ∃ t, get_ticker_from_alpha_vantage (P.symbol_search c) = some t ∧
        t ≠ "" ∧
        (∃ cap, fetch_market_cap P t = some cap ∧ cap ≠ 0) ∧
        (∃ prices labels,
          get_stock_price_for_competitor P t = (some prices, some labels) ∧
          prices ≠ [] ∧ labels ≠ []) ∧
        order.find? (fun d =>
          get_ticker_from_alpha_vantage (P.symbol_search d) == some t) =
          some c) ∧
    (get_top_competitors_loop P order [] = [] →
      get_top_competitors P order = []) := by
  constructor
  · intro c
    constructor
    · intro hmem
      obtain ⟨rec, hrec, hname⟩ := List.mem_map.mp hmem
      have hfacts := loop_mem P order [] rec hrec
      have hfind := loop_find P order [] rec hrec
      subst hname
      exact ⟨rec.ticker, hfacts.1, hfacts.2.1,
        ⟨rec.market_cap, hfacts.2.2.2.1, hfacts.2.2.2.2.1⟩,
        ⟨rec.stock_prices, rec.time_labels, hfacts.2.2.2.2.2.1,
          hfacts.2.2.2.2.2.2.1, hfacts.2.2.2.2.2.2.2.1⟩, hfind⟩
    · rintro ⟨t, hres, ht, ⟨cap, hcap, hcapne⟩,
        ⟨prices, labels, hprice, hpne, hlne⟩, hfind⟩
      obtain ⟨rec, hrec, hname, _⟩ :=
        loop_complete P order [] c t cap prices labels hres ht
          (List.not_mem_nil t) hcap hcapne hprice hpne hlne hfind
      exact List.mem_map.mpr ⟨rec, hrec, hname⟩
  · intro h
    rw [get_top_competitors, h]
    rfl

/-- C6 witness: Acme Corp is accepted by the duplicate-ticker provider (via
the backward direction of the characterisation), and with all-failing
providers the returned sequence is empty. -/
theorem c6_witness :
    "Acme Corp" ∈ (get_top_competitors_loop dupTickerProvider
      ["Acme Corp", "ACME"] []).map (fun rec => rec.name) ∧
    get_top_competitors failingProvider ["x"] = [] :=
  ⟨((c6_acceptance_characterisation dupTickerProvider
      ["Acme Corp", "ACME"]).1 "Acme Corp").mpr
      ⟨"ACME", by decide, by decide, ⟨7, by decide, by decide⟩,
        ⟨[2], ["d"], by decide, by decide, by decide⟩, by decide⟩,
    (c6_acceptance_characterisation failingProvider ["x"]).2 (by decide)⟩

/-- C7: the resolver scans the matches in provider order and returns the
symbol of the first match with region United States; a raised request, a
response without bestMatches, or no matching region gives absent; in
particular a unique matching candidate is returned whatever its position. -/
theorem c7_symbol_resolution (ms : List SymbolMatch) :
    get_ticker_from_alpha_vantage (.error ()) = none ∧
    get_ticker_from_alpha_vantage (.ok none) = none ∧
    ((∀ m ∈ ms, m.region ≠ "United States") →
      get_ticker_from_alpha_vantage (.ok (some ms)) = none) ∧
    (∀ pre m post, ms = pre ++ m :: post → m.region = "United States" →
      (∀ x ∈ pre, x.region ≠ "United States") →
      get_ticker_from_alpha_vantage (.ok (some ms)) = some m.symbol) ∧
    (∀ pre m post, ms = pre ++ m :: post → m.region = "United States" →
      (∀ x ∈ pre, x.region ≠ "United States") →
      (∀ x ∈ post, x.region ≠ "United States") →
      get_ticker_from_alpha_vantage (.ok (some ms)) = some m.symbol) := by
  have hfirst : ∀ pre m post, ms = pre ++ m :: post →
      m.region = "United States" →
      (∀ x ∈ pre, x.region ≠ "United States") →
      get_ticker_from_alpha_vantage (.ok (some ms)) = some m.symbol := by
    intro pre m post heq hm hpre
    subst heq
    simp only [get_ticker_from_alpha_vantage]
    rw [find_first_us m pre post hpre hm]
    rfl
  refine ⟨rfl, rfl, ?_, hfirst, ?_⟩
  · intro hall
    simp only [get_ticker_from_alpha_vantage]
    rw [List.find?_eq_none.mpr (fun x hx => by simp; exact hall x hx)]
    rfl
  · intro pre m post heq hm hpre _
    exact hfirst pre m post heq hm hpre

/-- C7 witness: among three matches only the second has region United
States, and its symbol is returned. -/
theorem c7_witness :
    get_ticker_from_alpha_vantage
      (.ok (some [⟨"SHOP", "Canada"⟩, ⟨"AAPL", "United States"⟩,
        ⟨"SAP", "Germany"⟩])) = some ("AAPL") :=
  (c7_symbol_resolution [⟨"SHOP", "Canada"⟩, ⟨"AAPL", "United States"⟩,
      ⟨"SAP", "Germany"⟩]).2.2.2.2 [⟨"SHOP", "Canada"⟩]
    ⟨"AAPL", "United States"⟩ [⟨"SAP", "Germany"⟩] rfl rfl (by decide)
    (by decide)

/-- C9: a candidate whose resolved ticker has market cap present but equal
to 0 contributes no record, neither to the accepted list nor to the
returned top list, because the acceptance guard tests truthiness. -/
theorem c9_zero_cap_dropped (P : Providers) (order : List String)
    (c t : String)
    (hres : get_ticker_from_alpha_vantage (P.symbol_search c) = some t)
    (hcap : fetch_market_cap P t = some 0) :
    (get_top_competitors_loop P order []).filter
      (fun rec => rec.name == c) = [] ∧
    (get_top_competitors P order).filter (fun rec => rec.name == c) = [] := by
  have hmain : ∀ rec ∈ get_top_competitors_loop P order [],
      ¬((fun rec : CompetitorEntry => rec.name == c) rec = true) := by
    intro rec hrec hbeq
    have hmem := loop_mem P order [] rec hrec
    have hname : rec.name = c := by simpa using hbeq
    rw [hname, hres] at hmem
    have hticker : t = rec.ticker := Option.some_injective _ hmem.1
    rw [← hticker, hcap] at hmem
    have : (0 : Nat) = rec.market_cap := Option.some_injective _ hmem.2.2.2.1
    exact hmem.2.2.2.2.1 this.symm
  constructor
  · exact List.filter_eq_nil_iff.mpr hmain
  · exact List.filter_eq_nil_iff.mpr
      (fun rec hrec => hmain rec (mem_loop_of_mem_gtc hrec))

/-- C9 witness: the zero-market-cap provider accepts nothing for the
candidate Acme. -/
theorem c9_witness :
    (get_top_competitors_loop zeroCapProvider ["Acme"] []).filter
      (fun rec => rec.name == "Acme") = [] ∧
    (get_top_competitors zeroCapProvider ["Acme"]).filter
      (fun rec => rec.name == "Acme") = [] :=
  c9_zero_cap_dropped zeroCapProvider ["Acme"] "Acme" ("T0") (by decide)
    (by decide)

/-- C10: every record of the returned top list has a non-empty close list
whose last element is exactly the record's latest-close field, so the
indexing stock_prices[-1] performed at acceptance time is well defined. -/
theorem c10_latest_close_welldefined (P : Providers) (order : List String)
    (rec : CompetitorEntry) (h : rec ∈ get_top_competitors P order) :
    rec.stock_prices ≠ [] ∧
    rec.stock_prices.getLast? = some rec.stock_price := by
  have hmem := loop_mem P order [] rec (mem_loop_of_mem_gtc h)
  have hne := hmem.2.2.2.2.2.2.1
  refine ⟨hne, ?_⟩
  obtain ⟨x, hx⟩ := Option.isSome_iff_exists.mp
    (List.getLast?_isSome.mpr hne)
  rw [hx, hmem.2.2.2.2.2.2.2.2, hx]
  rfl

/-- C10 witness: the record accepted from the duplicate-ticker provider has
a non-empty close list ending in its latest close. -/
theorem c10_witness :
    acmeEntry.stock_prices ≠ [] ∧
    acmeEntry.stock_prices.getLast? = some acmeEntry.stock_price :=
  c10_latest_close_welldefined dupTickerProvider ["Acme Corp", "ACME"]
    acmeEntry (by decide)

/-- C8 counterexample: the extractor is absent (the generation call raises)
and the pipeline completes with the placeholder breakdown, yet the
top-competitors list is NOT empty, because the placeholder competitor name
is itself fed to the ranker and here resolves to an accepted record. -/
theorem c8_counterexample :
    query_gemini_llm richProvider
      ("No Wikipedia page found for the given company.") = none ∧
    analyze_company richProvider List.dedup (some ("Foo")) =
      .success ("No Wikipedia page found for the given company.") ("TK")
        (List.map round2 [1]) ["d"] noSectorsPlaceholder
        [{ name := "No competitors found.", ticker := "TK", market_cap := 5,
           stock_prices := [1], time_labels := ["d"], stock_price := 1 }] ∧
    [{ name := "No competitors found.", ticker := "TK", market_cap := 5,
       stock_prices := [1], time_labels := ["d"], stock_price := 1 }] ≠
      ([] : List CompetitorEntry) :=
  ⟨rfl, rfl, by decide⟩

/-- C8 (amended): whenever the primary path succeeds and the competitor
extractor reports absent (generation raised, or the parse produced no
sector), analyze_company still completes successfully, with the
single-placeholder sector breakdown, and with a top-competitors list that
is exactly the ranker's output on the single placeholder candidate name
(empty whenever that name yields no accepted record, but not in general). -/
theorem c8_placeholder_on_extractor_absent (P : Providers)
    (setIter : List String → List String) (name s t : String)
    (closes : List ℚ) (labels : List String)
    (hname : name ≠ "")
    (hs : (fetch_wikipedia_summary P name).2 = s) (hs' : s ≠ "")
    (ht : get_ticker_from_alpha_vantage (P.symbol_search name) = some t)
    (ht' : t ≠ "")
    (hp : P.history t = .ok (closes, labels))
    (hcl : closes ≠ []) (hlb : labels ≠ [])
    (hg : query_gemini_llm P s = none ∨ query_gemini_llm P s = some []) :
    analyze_company P setIter (some name) =
      .success s t (closes.map round2) labels noSectorsPlaceholder
        (get_top_competitors P (setIter ["No competitors found."])) := by
  rcases hg with hg | hg <;>
  · simp only [analyze_company, hs, ht, fetch_stock_price, hp, hg,
      if_neg hname, if_neg hs', if_neg ht', List.map_eq_nil_iff, hcl, hlb,
      or_self, if_false, noSectorsPlaceholder, List.map_cons, List.map_nil,
      List.flatten]
    rfl

/-- C8 witness: the extractor-absent provider completes the pipeline with
the placeholder breakdown and the ranker output on the placeholder name. -/
theorem c8_witness :
    analyze_company extractorAbsentProvider List.dedup (some ("Apple")) =
      .success ("desc") ("TK") (List.map round2 [1]) ["d"]
        noSectorsPlaceholder
        (get_top_competitors extractorAbsentProvider
          (List.dedup ["No competitors found."])) :=
  c8_placeholder_on_extractor_absent extractorAbsentProvider List.dedup
    ("Apple") ("desc") ("TK") [1] ["d"] (by decide) rfl (by decide) rfl
    (by decide) rfl (by decide) (by decide) (Or.inl rfl)
